import Mathlib

/-!
Verification of the schema guard / autofill engine and declaration parser of
vite-plugin-interface-to-object.

The development shallowly embeds the runtime semantics of
`src/plugins/SchemeGuard.ts` and the type-classification logic of
`src/plugins/InterfaceSchemaParser.ts`.

Modelling conventions, matching the JavaScript runtime:
* JS values are the inductive `JSVal`; objects are insertion-ordered
  association lists (plain JS objects have unique string keys).
* In-place mutation is modelled functionally: each routine returns the value
  of the (possibly mutated) target.  The target value graphs handled here are
  trees, so functional update coincides with in-place mutation.
* A thrown TypeError is modelled as `Except.error GErr.typeError`.  The `in`
  operator on a non-object primitive throws TypeError, reading a property of
  `undefined` (e.g. `attribute.at(-1).value` on an empty attribute list, or
  the destructuring `entries[0]` on an empty entry list) throws TypeError.
* The generated descriptor module stores, for a `typeReference` attribute,
  the referenced declaration binding itself; distinct declaration names give
  distinct binding objects.  The `visited` WeakSet membership test on such a
  binding is therefore modelled by declaration-name membership in a list.
  For a `typeLiteral` attribute the generated `get attribute()` accessor
  rebuilds the attribute value object on every read, so an object added to
  `visited` is never the object tested later: the `visited.add` performed for
  `typeLiteral` attributes is observably inert and is modelled as a no-op,
  and a `visited.has` test on a `typeLiteral` (or primitive) attribute value
  is `false`.
* Recursion between the guard routines is fuelled: `applySchemaGuardF fuel`
  consumes one unit of fuel per nested `applySchemaGuard` call and returns
  `Except.error GErr.noFuel` when it runs out; all loops are structural.
-/

/-- Runtime JavaScript values produced and consumed by the guard engine. -/
inductive JSVal where
  | vStr (s : String)
  | vNum (n : Int)
  | vBool (b : Bool)
  | vUndefined
  | vNull
  | vArr (elems : List JSVal)
  | vObj (fields : List (String × JSVal))
deriving Repr

/-- The `DeclarationType` enum of `const.ts`. -/
inductive DeclarationType where
  | InterfaceDeclaration
  | TypeLiteralDeclaration
  | TypeAliasDeclaration
deriving Repr, DecidableEq

/-- The `KeyWord` enum of `const.ts` (the ten supported primitive keywords). -/
inductive KeyWord where
  | StringKeyword
  | NumberKeyword
  | BooleanKeyword
  | UndefinedKeyword
  | NullKeyword
  | AnyKeyword
  | UnknownKeyword
  | NeverKeyword
  | BigKeyword
  | SymbolKeyword
deriving Repr, DecidableEq

/-- The payload of an `AttributeValue` of the generated descriptor:
`valueType` together with `value`.  `baseType` carries a primitive keyword,
`alias` the literal's runtime value, `typeLiteral` the nested property list of
an inline object, and `typeReference` the name of the referenced declaration
(the generated code stores the referenced binding itself; bindings are
identified by their declaration name). -/
inductive AttrValue where
  | baseType (kw : KeyWord)
  | aliasV (v : JSVal)
  | typeLiteral (props : List (String × List (AttrValue × Bool)))
  | typeReference (name : String)
deriving Repr

/-- One `AttributeValue` of a field: the payload plus its `isArray` flag. -/
abbrev Attr := AttrValue × Bool

/-- The property map of a declaration binding: `Object.entries` order of
`key ↦ SchemaPropertyType.attribute`.  The guard engine never reads
`isOptional` or the duplicated `key` member, so only the attribute lists are
carried. -/
abbrev SchemaProps := List (String × List Attr)

/-- A declaration binding as loaded by the guard: its property entries plus
the hidden `_DeclarationTypeKey` discriminator (`none` for a plain inline
object value, which carries no discriminator). -/
structure Schema where
  kind : Option DeclarationType
  props : SchemaProps
deriving Repr

/-- The module environment resolving declaration names to their bindings. -/
abbrev Env := List (String × Schema)

/-- Errors: a thrown TypeError, or exhaustion of the recursion fuel. -/
inductive GErr where
  | typeError
  | noFuel
deriving Repr, DecidableEq

/-- Result of a guard routine: the returned value together with the state of
the shared `visited` set (which the engine mutates). -/
abbrev GRes := Except GErr (JSVal × List String)

/-- The type of the recursive `applySchemaGuard` entry point:
target value, target schema, `isArray` flag, `visited` set. -/
abbrev GuardFn := JSVal → Schema → Bool → List String → GRes

/-- `typeof` classification of a runtime value. -/
def typeofV : JSVal → String
  | .vStr _ => "string"
  | .vNum _ => "number"
  | .vBool _ => "boolean"
  | .vUndefined => "undefined"
  | .vNull => "object"
  | .vArr _ => "object"
  | .vObj _ => "object"

/-- `Array.isArray`. -/
def isArrayV : JSVal → Bool
  | .vArr _ => true
  | _ => false

/-- Membership of a key in an object's own fields. -/
def hasField (fields : List (String × JSVal)) (key : String) : Bool :=
  match fields with
  | [] => false
  | (k, _) :: rest => (k == key) || hasField rest key

/-- Field lookup, `undefined` when absent. -/
def getField (fields : List (String × JSVal)) (key : String) : JSVal :=
  match fields with
  | [] => .vUndefined
  | (k, v) :: rest => if k == key then v else getField rest key

/-- Property write `target[key] = v` on an object's field list: overwrites in
place if present, appends otherwise (JS insertion order). -/
def setField (fields : List (String × JSVal)) (key : String) (v : JSVal) :
    List (String × JSVal) :=
  match fields with
  | [] => [(key, v)]
  | (k, w) :: rest =>
    if k == key then (k, v) :: rest else (k, w) :: setField rest key v

/-- The `key in target` test.  Throws TypeError when `target` is not an
object; on an array the schema keys of interest are not own properties
(integer indices and `length` are not interface member names reached here). -/
def hasKey (target : JSVal) (key : String) : Except GErr Bool :=
  match target with
  | .vObj fields => .ok (hasField fields key)
  | .vArr _ => .ok false
  | _ => .error .typeError

/-- Property read `target[key]`; only evaluated after `key in target`
succeeded. -/
def getKey (target : JSVal) (key : String) : JSVal :=
  match target with
  | .vObj fields => getField fields key
  | _ => .vUndefined

/-- Property write `target[key] = v`.  Only reached after `key in target`
succeeded, so `target` is an object or an array; expando properties on arrays
are not modelled (array targets are excluded by the object-shapedness
hypotheses of the theorems below). -/
def setKey (target : JSVal) (key : String) (v : JSVal) : JSVal :=
  match target with
  | .vObj fields => .vObj (setField fields key v)
  | other => other

/-- JS strict equality `===` as used by `checkAliasType`: the compared
attribute value is always a literal (a primitive), and `===` on a primitive
versus an object is `false`.  (Reference equality of two objects cannot arise
here because literal alias payloads are never objects.) -/
def jsStrictEq (a b : JSVal) : Bool :=
  match a, b with
  | .vStr x, .vStr y => x == y
  | .vNum x, .vNum y => x == y
  | .vBool x, .vBool y => x == y
  | .vUndefined, .vUndefined => true
  | .vNull, .vNull => true
  | _, _ => false

/-- Environment lookup of a declaration binding by name. -/
def envLookup (env : Env) (name : String) : Option Schema :=
  match env with
  | [] => none
  | (n, s) :: rest => if n == name then some s else envLookup rest name

/-- Membership of a declaration name in the `visited` set. -/
def memName (name : String) : List String → Bool
  | [] => false
  | x :: xs => (x == name) || memName name xs

/-- `visited.has(attribute.value)`: true only for a `typeReference` whose
referenced binding (identified by name) is in the set; `typeLiteral` values
are rebuilt on each accessor read and primitives are never WeakSet members,
so both test `false`. -/
def visitedHas (visited : List String) : Attr → Bool
  | (.typeReference name, _) => memName name visited
  | _ => false

/-- `visited.add(attribute.value)`, performed when the value type is
`TypeLiteral` or `TypeReference`; the `typeLiteral` addition stores a freshly
rebuilt object that no later `has` test can observe, hence is inert. -/
def visitedAdd (visited : List String) : Attr → List String
  | (.typeReference name, _) => name :: visited
  | _ => visited

/-- `fillBaseType` of `SchemeGuard.ts`: generated default of a primitive
keyword. -/
def fillBaseType (kw : KeyWord) : JSVal :=
  match kw with
  | .StringKeyword => .vStr ""
  | .NumberKeyword => .vNum 0
  | .BooleanKeyword => .vBool false
  | .UndefinedKeyword => .vUndefined
  | .NullKeyword => .vNull
  | _ => .vNull

/-- `fillAliasType` of `SchemeGuard.ts`: a literal's default is its own
value. -/
def fillAliasType (v : JSVal) : JSVal := v

/-- `checkBaseType` of `SchemeGuard.ts`: `(isVerify, value)`. -/
def checkBaseType (paramValue : JSVal) (isArray : Bool) (kw : KeyWord) :
    Bool × JSVal :=
  if isArray && isArrayV paramValue then (true, paramValue)
  else
    match kw with
    | .StringKeyword =>
      if typeofV paramValue == "string" then (true, paramValue)
      else (false, paramValue)
    | .NumberKeyword =>
      if typeofV paramValue == "number" then (true, paramValue)
      else (false, paramValue)
    | .BooleanKeyword =>
      if typeofV paramValue == "boolean" then (true, paramValue)
      else (false, paramValue)
    | .UndefinedKeyword =>
      if typeofV paramValue == "undefined" then (true, paramValue)
      else (false, paramValue)
    | .NullKeyword =>
      match paramValue with
      | .vNull => (true, .vNull)
      | v => (false, v)
    | _ => (false, paramValue)

/-- `checkAliasType` of `SchemeGuard.ts`. -/
def checkAliasType (paramValue : JSVal) (isArray : Bool) (value : JSVal) :
    Bool × JSVal :=
  if isArray && isArrayV paramValue then (true, paramValue)
  else if jsStrictEq paramValue value then (true, paramValue)
  else (false, value)

/-- `checkTypeLiteral` of `SchemeGuard.ts`: always verifies; descends into the
current value (per element when `isArray` and the value is an array) with a
fresh `visited` set, repairing in place.  The recursive `applySchemaGuard` is
passed as `g`. -/
def checkTypeLiteral (g : GuardFn) (paramValue : JSVal) (isArray : Bool)
    (props : SchemaProps) : Except GErr (Bool × JSVal) :=
  if isArray && isArrayV paramValue then
    match paramValue with
    | .vArr elems => do
      let elems' ← elems.mapM (fun item => do
        let (r, _) ← g item ⟨none, props⟩ false []
        pure r)
      pure (true, .vArr elems')
    | v => pure (true, v)
  else do
    let (r, _) ← g paramValue ⟨none, props⟩ false []
    pure (true, r)

/-- `checkTypeReference` of `SchemeGuard.ts`: resolves the referenced binding
and always verifies, descending like `checkTypeLiteral`.  The value kept is
the (in-place mutated) current value; when the referenced declaration is a
`TypeAliasDeclaration` the nested guard returns a scalar without mutating the
target, and its return value is discarded. -/
def checkTypeReference (g : GuardFn) (env : Env) (paramValue : JSVal)
    (isArray : Bool) (name : String) : Except GErr (Bool × JSVal) :=
  match envLookup env name with
  | none => .error .typeError
  | some schema =>
    if isArray && isArrayV paramValue then
      match paramValue with
      | .vArr elems => do
        let elems' ← elems.mapM (fun item => do
          let (r, _) ← g item schema false []
          pure (if schema.kind == some .TypeAliasDeclaration then item else r))
        pure (true, .vArr elems')
      | v => pure (true, v)
    else do
      let (r, _) ← g paramValue schema false []
      pure (true,
        if schema.kind == some .TypeAliasDeclaration then paramValue else r)

/-- `fillTypeLiteral` of `SchemeGuard.ts`: guards a fresh empty object against
the inline property list (sharing `visited`) and returns that object. -/
def fillTypeLiteral (g : GuardFn) (props : SchemaProps) (isArray : Bool)
    (visited : List String) : GRes := do
  let (r, visited') ← g (.vObj []) ⟨none, props⟩ isArray visited
  pure ((if isArray then .vObj [] else r), visited')

/-- `fillTypeReference` of `SchemeGuard.ts`: guards a fresh empty object
against the referenced binding (sharing `visited`) and returns the guard's
result. -/
def fillTypeReference (g : GuardFn) (env : Env) (name : String)
    (isArray : Bool) (visited : List String) : GRes :=
  match envLookup env name with
  | none => .error .typeError
  | some schema => g (.vObj []) schema isArray visited

/-- `autoFillValue` of `SchemeGuard.ts`: generates the default of the field's
last attribute (`attribute.at(-1)`; reading `.isArray` of `undefined` on an
empty list throws). -/
def autoFillValue (g : GuardFn) (env : Env) (attrs : List Attr)
    (visited : List String) : GRes :=
  match attrs.getLast? with
  | none => .error .typeError
  | some (av, isArr) =>
    if isArr then .ok (.vArr [], visited)
    else
      match av with
      | .baseType kw => .ok (fillBaseType kw, visited)
      | .aliasV v => .ok (fillAliasType v, visited)
      | .typeLiteral props => fillTypeLiteral g props isArr visited
      | .typeReference name => fillTypeReference g env name isArr visited

/-- The `verIfyFieldsOuter` loop of `verifyAndFillField`: walks the attribute
list in declared order over the current value.  A passing `baseType`/`alias`
check breaks out of the loop with the value; a `typeLiteral`/`typeReference`
check always passes, updates the current (in-place repaired) value and the
verified flag, and continues the loop. -/
def verifyLoop (g : GuardFn) (env : Env) (attrs : List Attr)
    (current : JSVal) (flag : Bool) : Except GErr (Bool × JSVal) :=
  match attrs with
  | [] => .ok (flag, current)
  | (av, isArr) :: rest =>
    match av with
    | .baseType kw =>
      let (isVerify, v) := checkBaseType current isArr kw
      if isVerify then .ok (true, v) else verifyLoop g env rest current flag
    | .aliasV lit =>
      let (isVerify, v) := checkAliasType current isArr lit
      if isVerify then .ok (true, v) else verifyLoop g env rest current flag
    | .typeLiteral props => do
      let (isVerify, v) ← checkTypeLiteral g current isArr props
      verifyLoop g env rest (if isVerify then v else current)
        (flag || isVerify)
    | .typeReference name => do
      let (isVerify, v) ← checkTypeReference g env current isArr name
      verifyLoop g env rest (if isVerify then v else current)
        (flag || isVerify)

/-- `verifyAndFillField` of `SchemeGuard.ts`: if some attribute verified, the
last verified value is returned; otherwise the autofill default of the field
is generated (mutating the shared `visited`). -/
def verifyAndFillField (g : GuardFn) (env : Env) (target : JSVal)
    (attrs : List Attr) (visited : List String) : GRes := do
  let (flag, newParam) ← verifyLoop g env attrs target false
  if flag then .ok (newParam, visited)
  else autoFillValue g env attrs visited

/-- The per-entry `for (const [key, schemaProperty] of entries)` loop of
`applySchemaGuard`.  A present key is verified and refilled; an absent key is
checked against `visited` — a hit assigns `{}` and returns the target
immediately, abandoning the remaining entries — otherwise the referenced
binding is added to `visited` and the autofill default assigned. -/
def guardFields (g : GuardFn) (env : Env) (target : JSVal) :
    SchemaProps → List String → GRes
  | [], visited => .ok (target, visited)
  | (key, attrs) :: rest, visited => do
    let present ← hasKey target key
    if present then do
      let (newVal, visited') ← verifyAndFillField g env (getKey target key)
        attrs visited
      guardFields g env (setKey target key newVal) rest visited'
    else
      match attrs.getLast? with
      | none => .error .typeError
      | some attr =>
        if visitedHas visited attr then
          .ok (setKey target key (.vObj []), visited)
        else do
          let visited' := visitedAdd visited attr
          let (v, visited'') ← autoFillValue g env attrs visited'
          guardFields g env (setKey target key v) rest visited''

/-- `applySchemaGuard` of `SchemeGuard.ts`, fuelled: returns `[]` at once on
the `isArray` hint; resolves a `TypeAliasDeclaration` schema to the autofill
value of its single synthetic property (the `entries[0]` destructuring throws
on an empty entry list); otherwise runs the per-entry loop. -/
def applySchemaGuardF : Nat → Env → GuardFn
  | 0, _, _, _, _, _ => .error .noFuel
  | fuel + 1, env, target, targetSchema, isArray, visited =>
    if isArray then .ok (.vArr [], visited)
    else if targetSchema.kind == some .TypeAliasDeclaration then
      match targetSchema.props with
      | [] => .error .typeError
      | (_, attrs) :: _ =>
        autoFillValue (applySchemaGuardF fuel env) env attrs visited
    else
      guardFields (applySchemaGuardF fuel env) env target targetSchema.props
        visited

/-!
Declaration parser model (`InterfaceSchemaParser.ts`), restricted to the
type-expression classification that drives attribute construction.  A
`TypeNode` mirrors the syntax-kind cases of `parseTypeNode`; an interface or
type-literal member is `none` for a non-`PropertySignature` member and
`some (name, questionToken, type)` for a property signature.
-/

/-- A TypeScript type expression, by the syntax kinds `parseTypeNode`
distinguishes; `unsupportedNode` is every other kind (index signatures,
function types, mapped/conditional types, ...). -/
inductive TypeNode where
  | baseKeyword (kw : KeyWord)
  | arrayType (elementType : TypeNode)
  | literalType (text : String)
  | unionType (types : List TypeNode)
  | typeReferenceNode (text : String)
  | typeLiteralNode (members : List (Option (String × Bool × Option TypeNode)))
  | unsupportedNode (text : String)
deriving Repr

/-- A member node: `none` when not a `PropertySignature`, otherwise the
property name, its `questionToken` presence, and its type annotation. -/
abbrev MemberNode := Option (String × Bool × Option TypeNode)

/-- The `AttributeValueType` discriminator of `const.ts`. -/
inductive PValueType where
  | typeReference
  | typeLiteral
  | baseType
  | alias
deriving Repr, DecidableEq

/-- The parsed value of an `AttributeValue`: the `ParseError` marker (whose
construction in `createErrorAttr` is always accompanied by a logged
`UnsupportedTypeWarning`), a primitive keyword, a literal's source text, a
formatted referenced name, or the nested member list of an inline object
(`createTypeLiteralAttr` maps `parsePropertyNode` without filtering the
`null`s). -/
inductive PAttrValue where
  | errVal
  | kwText (kw : KeyWord)
  | litText (text : String)
  | refName (name : String)
  | nestedProps
      (props : List (Option (String × List (PAttrValue × Bool × PValueType) × Bool)))
deriving Repr

/-- A parsed `AttributeValue`: value, `isArray`, `valueType`. -/
abbrev PAttr := PAttrValue × Bool × PValueType

/-- A parsed `SchemaPropertyType`: key, attribute list, `isOptional`. -/
abbrev PProp := String × List PAttr × Bool

/-- `formatObjectName` of `Tool.ts`. -/
def formatObjectName (objectName : String) : String :=
  "_" ++ objectName ++ "__" ++ String.mk objectName.data.reverse

/-- `createErrorAttr` of `InterfaceSchemaParser.ts` (each construction logs an
`UnsupportedTypeWarning` and yields the `ParseError` marker). -/
def createErrorAttr : PAttr := (.errVal, false, .baseType)

/-- Does a parsed attribute carry the `ParseError` marker? -/
def isErrAttr (a : PAttr) : Bool :=
  match a.1 with
  | .errVal => true
  | _ => false

/-- Any list has positive `sizeOf`; used for the parser's termination. -/
theorem list_sizeOf_pos {α : Type} [SizeOf α] (l : List α) : 0 < sizeOf l := by
  cases l <;> simp_arith

mutual

/-- `parseTypeNode` of `InterfaceSchemaParser.ts`: classifies a type
expression into attribute values, dropping unsupported forms to the
`ParseError` marker.  A bare reference whose text contains a type-argument
list (`<`) is unsupported (`createTypeRefAttr`); array types recurse and mark
every resulting attribute `isArray`; unions flatten in declared order. -/
def parseTypeNode : Option TypeNode → List PAttr
  | none => [createErrorAttr]
  | some (.baseKeyword kw) => [(.kwText kw, false, .baseType)]
  | some (.arrayType el) =>
    (parseTypeNode (some el)).map (fun a => (a.1, true, a.2.2))
  | some (.literalType text) => [(.litText text, false, .alias)]
  | some (.unionType types) => parseTypeNodeList types
  | some (.typeReferenceNode text) =>
    if text.data.contains '<' then [createErrorAttr]
    else [(.refName (formatObjectName text), false, .typeReference)]
  | some (.typeLiteralNode members) =>
    [(.nestedProps (parseMemberList members), false, .typeLiteral)]
  | some (.unsupportedNode _) => [createErrorAttr]
termination_by t => sizeOf t
decreasing_by all_goals (simp_wf <;> omega)

/-- The `flatMap` of `createUnionAttr`. -/
def parseTypeNodeList : List TypeNode → List PAttr
  | [] => []
  | t :: ts => parseTypeNode (some t) ++ parseTypeNodeList ts
termination_by ts => sizeOf ts
decreasing_by
  all_goals (simp_wf <;> first | omega | (have h1 := list_sizeOf_pos ts; omega))

/-- The `members.map(parsePropertyNode)` of `createTypeLiteralAttr`. -/
def parseMemberList : List MemberNode →
    List (Option (String × List PAttr × Bool))
  | [] => []
  | m :: ms => parsePropertyNode m :: parseMemberList ms
termination_by ms => sizeOf ms
decreasing_by
  all_goals (simp_wf <;> first | omega | (have h1 := list_sizeOf_pos ms; omega))

/-- `parsePropertyNode` of `InterfaceSchemaParser.ts`: a non-property member
yields nothing; otherwise the type annotation is classified, `ParseError`
attributes are filtered out, and a property whose attribute list became empty
is dropped (`null`). -/
def parsePropertyNode : MemberNode → Option PProp
  | none => none
  | some (name, questionToken, ty) =>
    let attributes := parseTypeNode ty
    let validAttributes := attributes.filter (fun a => !(isErrAttr a))
    if validAttributes.isEmpty then none
    else some (name, validAttributes, questionToken)
termination_by m => sizeOf m
decreasing_by all_goals (simp_wf <;> omega)

end

/-- The property collection of `parseInterfaceNode` /
`parsedTypeLiteralNode`: each member is parsed and `null` results are not
pushed. -/
def parseInterfaceProps (members : List MemberNode) : List PProp :=
  match members with
  | [] => []
  | m :: ms =>
    match parsePropertyNode m with
    | some p => p :: parseInterfaceProps ms
    | none => parseInterfaceProps ms

/-!
Concrete declaration environments used by the claim theorems, together with
small observables used to separate structurally different values.
-/

/-- Number of own keys of an object value. -/
def topKeyCount : JSVal → Nat
  | .vObj fields => fields.length
  | _ => 0

/-- Iterated property read along one key. -/
def drill : Nat → String → JSVal → JSVal
  | 0, _, v => v
  | n + 1, key, v => drill n key (getKey v key)

/-- Declaration `A { b: B }` of the mutual-cycle example. -/
def schemaA : Schema :=
  ⟨some .InterfaceDeclaration, [("b", [(.typeReference "B", false)])]⟩

/-- Declaration `B { a: A }` of the mutual-cycle example. -/
def schemaB : Schema :=
  ⟨some .InterfaceDeclaration, [("a", [(.typeReference "A", false)])]⟩

/-- The two-declaration module of the mutual-cycle example. -/
def envAB : Env := [("A", schemaA), ("B", schemaB)]

/-- A self-referencing declaration `name { key: name }`. -/
def selfSchema (name key : String) : Schema :=
  ⟨some .InterfaceDeclaration, [(key, [(.typeReference name, false)])]⟩

/-- The one-declaration module of a self-referencing declaration. -/
def selfEnv (name key : String) : Env := [(name, selfSchema name key)]

/-- Declaration `A3 { b: A3; d: A3; c: string }`: two fields referencing the
same declaration followed by a primitive field. -/
def schemaA3 : Schema :=
  ⟨some .InterfaceDeclaration,
    [("b", [(.typeReference "A3", false)]),
     ("d", [(.typeReference "A3", false)]),
     ("c", [(.baseType .StringKeyword, false)])]⟩

/-- The module of `schemaA3`. -/
def envA3 : Env := [("A3", schemaA3)]

/-- Declaration `{ user: { name: string } }`: a field whose single
alternative is an inline object. -/
def schemaUserInline : Schema :=
  ⟨some .InterfaceDeclaration,
    [("user",
      [(.typeLiteral [("name", [(.baseType .StringKeyword, false)])], false)])]⟩

/-- The literal-union declaration `Role = 'admin' | 'user'`. -/
def roleSchema : Schema :=
  ⟨some .TypeAliasDeclaration,
    [("Role", [(.aliasV (.vStr "admin"), false), (.aliasV (.vStr "user"), false)])]⟩

/-- Attribute list of a field typed `{a: string} | {b: number}`. -/
def attrsTwoInline : List Attr :=
  [(.typeLiteral [("a", [(.baseType .StringKeyword, false)])], false),
   (.typeLiteral [("b", [(.baseType .NumberKeyword, false)])], false)]

/-- The same attribute list truncated to its first alternative. -/
def attrsFirstInline : List Attr :=
  [(.typeLiteral [("a", [(.baseType .StringKeyword, false)])], false)]

/-- Result of guarding `{}` against the self-referencing declaration. -/
def selfOnce : JSVal := .vObj [("b", .vObj [("b", .vObj [])])]

/-- Result of guarding `selfOnce` against the same declaration again. -/
def selfTwice : JSVal :=
  .vObj [("b", .vObj [("b", .vObj [("b", .vObj [("b", .vObj [])])])])]

/-- C10: for every target value and every schema, calling the guard with the
`isArray` hint set returns a fresh empty array at once, ignoring both the
target and the schema and leaving the target untouched. -/
theorem c10_array_hint_returns_fresh_empty_array :
    ∀ (fuel : Nat) (env : Env) (target : JSVal) (schema : Schema)
      (visited : List String),
      applySchemaGuardF (fuel + 1) env target schema true visited =
        .ok (.vArr [], visited) := by
  intro fuel env target schema visited
  rfl

/-- C9: guarding against a `TypeAliasDeclaration` (literal-union) schema
ignores the supplied target entirely: for every target — including
`'admin'`, a branch of the union — the result is the generated default of
the last alternative, `'user'`. -/
theorem c9_literal_union_ignores_target :
    ∀ (target : JSVal) (fuel : Nat),
      applySchemaGuardF (fuel + 1) [] target roleSchema false [] =
        .ok (.vStr "user", []) := by
  intro target fuel
  rfl

/-- C7: for the literal-union declaration `Role = 'admin' | 'user'`,
`guard(undefined, RoleSchema)` resolves the single synthetic field directly
and returns the scalar `'user'` (the last alternative's default), not an
object. -/
theorem c7_literal_union_guards_to_scalar :
    applySchemaGuardF 2 [] .vUndefined roleSchema false [] =
      .ok (.vStr "user", []) := rfl

/-- C1 (bug evaluation): guarding `{user: 5}` — a scalar where the
object-kind `user` alternative expects an object — evaluates the `in`
operator on the scalar `5` inside the nested `applySchemaGuard` call and
throws a TypeError instead of completing. -/
theorem c1_guard_throws_on_scalar_at_object_position :
    applySchemaGuardF 10 [] (.vObj [("user", .vNum 5)]) schemaUserInline
      false [] = .error .typeError := rfl

/-- C2 (counterexample): for the self-referencing declaration `A {b: A}`,
`guard({}, A)` returns `{b: {b: {}}}` but guarding that result again returns
`{b: {b: {b: {b: {}}}}}` — the second run expands the cycle cut further, so
`guard(guard(x, S), S)` is not structurally identical to `guard(x, S)`. -/
theorem c2_guard_not_idempotent_on_cycles :
    applySchemaGuardF 10 (selfEnv "A" "b") (.vObj []) (selfSchema "A" "b")
        false [] = .ok (selfOnce, ["A"]) ∧
    applySchemaGuardF 10 (selfEnv "A" "b") selfOnce (selfSchema "A" "b")
        false [] = .ok (selfTwice, []) ∧
    selfTwice ≠ selfOnce := by
  refine ⟨rfl, rfl, fun h => ?_⟩
  exact absurd (congrArg (fun v => topKeyCount (drill 2 "b" v)) h) (by decide)

/-- C3 (bug evaluation): for `A3 {b: A3; d: A3; c: string}`, guarding `{}`
hits the `visited` short-circuit at field `d` and returns immediately, so the
primitive field `c` — whose alternative list is non-empty — is missing from
the result. -/
theorem c3_field_after_short_circuit_missing :
    applySchemaGuardF 10 envA3 (.vObj []) schemaA3 false [] =
      .ok (.vObj [("b", .vObj [("b", .vObj [])]), ("d", .vObj [])], ["A3"]) ∧
    hasKey (.vObj [("b", .vObj [("b", .vObj [])]), ("d", .vObj [])]) "c" =
      .ok false := ⟨rfl, rfl⟩

/-- C4 (counterexample): for `A {b: B}`, `B {a: A}`, `guard({}, A)` returns
`{b: {a: {b: {}}}}`: the `a` slot of the result is `{b: {}}`, not the empty
object — the cut falls on the inner `b` slot, where `B` is first revisited. -/
theorem c4_a_slot_is_not_empty_object :
    applySchemaGuardF 10 envAB (.vObj []) schemaA false [] =
      .ok (.vObj [("b", .vObj [("a", .vObj [("b", .vObj [])])])], ["A", "B"]) ∧
    getKey (getKey
      (.vObj [("b", .vObj [("a", .vObj [("b", .vObj [])])])]) "b") "a" ≠
      .vObj [] := by
  refine ⟨rfl, fun h => ?_⟩
  exact absurd (congrArg topKeyCount h) (by decide)

/-- C6 (counterexample): for a field typed `{a: string} | {b: number}` and
present value `{}`, the first (inline-object) alternative passes, yet the
second alternative still runs and merges `b: 0` into the value: the result
differs from what the first alternative alone produces, so a later
alternative does affect the result. -/
theorem c6_later_alternative_changes_result :
    verifyAndFillField (applySchemaGuardF 10 []) [] (.vObj []) attrsTwoInline
        [] = .ok (.vObj [("a", .vStr ""), ("b", .vNum 0)], []) ∧
    verifyAndFillField (applySchemaGuardF 10 []) [] (.vObj [])
        attrsFirstInline [] = .ok (.vObj [("a", .vStr "")], []) ∧
    (JSVal.vObj [("a", .vStr ""), ("b", .vNum 0)]) ≠
      .vObj [("a", .vStr "")] := by
  refine ⟨rfl, rfl, fun h => ?_⟩
  exact absurd (congrArg topKeyCount h) (by decide)

/-!
Flat (primitive/literal) attribute machinery: checks of flat attributes keep
the inspected value and never recurse, which underlies the first-match,
default-fidelity and idempotence theorems.
-/

/-- Is an attribute `baseType` or `alias` (no object-kind descent)? -/
def isFlatAttr (a : Attr) : Bool :=
  match a.1 with
  | .baseType _ => true
  | .aliasV _ => true
  | _ => false

/-- The verification outcome of a flat attribute against a value. -/
def flatCheck (a : Attr) (x : JSVal) : Bool :=
  match a.1 with
  | .baseType kw => (checkBaseType x a.2 kw).1
  | .aliasV lit => (checkAliasType x a.2 lit).1
  | _ => false

/-- The generated default of a flat last attribute. -/
def flatDefault (a : Attr) : JSVal :=
  if a.2 then .vArr []
  else
    match a.1 with
    | .baseType kw => fillBaseType kw
    | .aliasV v => fillAliasType v
    | _ => .vNull

/-- `checkBaseType` always hands back the inspected value. -/
theorem checkBaseType_snd (x : JSVal) (arr : Bool) (kw : KeyWord) :
    (checkBaseType x arr kw).2 = x := by
  unfold checkBaseType
  split
  · rfl
  · cases kw <;> simp <;> split <;> rfl

/-- A passing `checkAliasType` hands back the inspected value. -/
theorem checkAliasType_pass_snd (x : JSVal) (arr : Bool) (lit : JSVal)
    (h : (checkAliasType x arr lit).1 = true) :
    (checkAliasType x arr lit).2 = x := by
  unfold checkAliasType at h ⊢
  split_ifs at h ⊢ <;> simp_all

/-- C5: whenever a field is autofilled, the value generated by
`autoFillValue` is the default of the field's last attribute: an empty array
when `isArray` holds regardless of element kind; `""`, `0`, `false`,
`undefined`, `null` for the five value-producing primitive keywords and
`null` for `any`/`unknown`/`never`/`bigint`/`symbol`; and the literal's own
value for a literal alias. -/
theorem c5_autofill_uses_last_alternative_default :
    ∀ (g : GuardFn) (env : Env) (pre : List Attr) (visited : List String),
      (∀ av : AttrValue,
        autoFillValue g env (pre ++ [(av, true)]) visited =
          .ok (.vArr [], visited)) ∧
      autoFillValue g env (pre ++ [(.baseType .StringKeyword, false)]) visited
        = .ok (.vStr "", visited) ∧
      autoFillValue g env (pre ++ [(.baseType .NumberKeyword, false)]) visited
        = .ok (.vNum 0, visited) ∧
      autoFillValue g env (pre ++ [(.baseType .BooleanKeyword, false)]) visited
        = .ok (.vBool false, visited) ∧
      autoFillValue g env (pre ++ [(.baseType .UndefinedKeyword, false)])
        visited = .ok (.vUndefined, visited) ∧
      autoFillValue g env (pre ++ [(.baseType .NullKeyword, false)]) visited
        = .ok (.vNull, visited) ∧
      autoFillValue g env (pre ++ [(.baseType .AnyKeyword, false)]) visited
        = .ok (.vNull, visited) ∧
      autoFillValue g env (pre ++ [(.baseType .UnknownKeyword, false)]) visited
        = .ok (.vNull, visited) ∧
      autoFillValue g env (pre ++ [(.baseType .NeverKeyword, false)]) visited
        = .ok (.vNull, visited) ∧
      autoFillValue g env (pre ++ [(.baseType .BigKeyword, false)]) visited
        = .ok (.vNull, visited) ∧
      autoFillValue g env (pre ++ [(.baseType .SymbolKeyword, false)]) visited
        = .ok (.vNull, visited) ∧
      (∀ v : JSVal,
        autoFillValue g env (pre ++ [(.aliasV v, false)]) visited =
          .ok (v, visited)) := by
  intro g env pre visited
  refine ⟨fun av => ?_, ?_, ?_, ?_, ?_, ?_, ?_, ?_, ?_, ?_, ?_, fun v => ?_⟩
  all_goals simp [autoFillValue, List.getLast?_concat, fillBaseType,
    fillAliasType]

/-- A flat attribute whose check passes stops the verify loop at once,
keeping the inspected value exactly. -/
theorem verifyLoop_flat_pass (g : GuardFn) (env : Env) (a : Attr)
    (post : List Attr) (x : JSVal) (flag : Bool)
    (hPass : flatCheck a x = true) :
    verifyLoop g env (a :: post) x flag = .ok (true, x) := by
  obtain ⟨av, arr⟩ := a
  cases av with
  | baseType kw =>
    have hsnd := checkBaseType_snd x arr kw
    simp only [flatCheck] at hPass
    simp only [verifyLoop]
    rcases hcb : checkBaseType x arr kw with ⟨b, v⟩
    rw [hcb] at hPass hsnd
    simp at hPass hsnd
    simp [hPass, hsnd]
  | aliasV lit =>
    have hsnd := checkAliasType_pass_snd x arr lit
    simp only [flatCheck] at hPass
    simp only [verifyLoop]
    rcases hcb : checkAliasType x arr lit with ⟨b, v⟩
    rw [hcb] at hPass hsnd
    simp at hPass
    simp [hPass] at hsnd
    simp [hPass, hsnd]
  | typeLiteral props => simp [flatCheck] at hPass
  | typeReference name => simp [flatCheck] at hPass

/-- A flat attribute whose check fails lets the verify loop continue
unchanged. -/
theorem verifyLoop_flat_fail (g : GuardFn) (env : Env) (a : Attr)
    (post : List Attr) (x : JSVal) (flag : Bool)
    (hFlat : isFlatAttr a = true) (hFail : flatCheck a x = false) :
    verifyLoop g env (a :: post) x flag = verifyLoop g env post x flag := by
  obtain ⟨av, arr⟩ := a
  cases av with
  | baseType kw =>
    simp only [flatCheck] at hFail
    simp only [verifyLoop]
    rcases hcb : checkBaseType x arr kw with ⟨b, v⟩
    rw [hcb] at hFail
    simp at hFail
    simp [hFail]
  | aliasV lit =>
    simp only [flatCheck] at hFail
    simp only [verifyLoop]
    rcases hcb : checkAliasType x arr lit with ⟨b, v⟩
    rw [hcb] at hFail
    simp at hFail
    simp [hFail]
  | typeLiteral props => simp [isFlatAttr] at hFlat
  | typeReference name => simp [isFlatAttr] at hFlat

/-- C6 (amended): when the target already has the field's key and the first
alternative whose runtime check passes is a primitive or literal one (every
earlier alternative being flat and failing), that exact value is kept
uncoerced and no alternative after the match — `post` is arbitrary and
absent from the conclusion — affects the result. -/
theorem c6_first_flat_match_keeps_value :
    ∀ (g : GuardFn) (env : Env) (pre post : List Attr) (a : Attr) (x : JSVal)
      (visited : List String),
      pre.all (fun b => isFlatAttr b && !(flatCheck b x)) = true →
      flatCheck a x = true →
      verifyAndFillField g env x (pre ++ a :: post) visited =
        .ok (x, visited) := by
  intro g env pre post a x visited hPre hPass
  have hLoop : verifyLoop g env (pre ++ a :: post) x false = .ok (true, x) := by
    induction pre with
    | nil => exact verifyLoop_flat_pass g env a post x false hPass
    | cons b pre ih =>
      rw [List.all_cons, Bool.and_eq_true] at hPre
      obtain ⟨hb, hrest⟩ := hPre
      rw [Bool.and_eq_true] at hb
      obtain ⟨hb1, hb2⟩ := hb
      rw [Bool.not_eq_true'] at hb2
      rw [List.cons_append,
        verifyLoop_flat_fail g env b (pre ++ a :: post) x false hb1 hb2]
      exact ih hrest
  simp [verifyAndFillField, hLoop, Bind.bind, Except.bind]

/-- C4 (amended): on the mutual cycle `A {b: B}`, `B {a: A}`, `guard({}, A)`
terminates with `{b: {a: {b: {}}}}` — the recursion is cut where `B` is first
revisited, so the empty object sits in the inner `b` slot (the `a` slot is
`{b: {}}`); and for every self-referencing declaration `name {key: name}`,
`guard({}, name)` terminates with `{key: {key: {}}}`. -/
theorem c4_cycle_cut_terminates :
    applySchemaGuardF 10 envAB (.vObj []) schemaA false [] =
      .ok (.vObj [("b", .vObj [("a", .vObj [("b", .vObj [])])])], ["A", "B"]) ∧
    ∀ (name key : String),
      applySchemaGuardF 4 (selfEnv name key) (.vObj []) (selfSchema name key)
        false [] = .ok (.vObj [(key, .vObj [(key, .vObj [])])], [name]) := by
  refine ⟨rfl, fun name key => ?_⟩
  simp [applySchemaGuardF, guardFields, autoFillValue, fillTypeReference,
    envLookup, visitedHas, visitedAdd, memName, hasKey, hasField, setKey,
    setField, selfSchema, selfEnv, Bind.bind, Except.bind]

/-!
Inversion and framing lemmas for the per-field loop.
-/

/-- Inversion of a successful `Except` bind. -/
theorem bind_ok_inv {α β : Type} {e : Except GErr α} {f : α → Except GErr β}
    {b : β} (h : e >>= f = .ok b) : ∃ a, e = .ok a ∧ f a = .ok b := by
  cases e with
  | error err => simp [Bind.bind, Except.bind] at h
  | ok a => exact ⟨a, rfl, by simpa [Bind.bind, Except.bind] using h⟩

/-- A key just written is present. -/
theorem hasField_setField_self (fs : List (String × JSVal)) (k : String)
    (v : JSVal) : hasField (setField fs k v) k = true := by
  induction fs with
  | nil => simp [setField, hasField]
  | cons p rest ih =>
    obtain ⟨k0, w⟩ := p
    by_cases h : (k0 == k) = true
    · simp [setField, h, hasField]
    · simp only [setField, hasField]
      rw [if_neg (by simp [h])]
      simp [hasField, h, ih]

/-- Reading a key just written yields the written value. -/
theorem getField_setField_self (fs : List (String × JSVal)) (k : String)
    (v : JSVal) : getField (setField fs k v) k = v := by
  induction fs with
  | nil => simp [setField, getField]
  | cons p rest ih =>
    obtain ⟨k0, w⟩ := p
    by_cases h : (k0 == k) = true
    · simp [setField, h, getField]
    · simp only [setField, getField]
      rw [if_neg (by simp [h])]
      simp [getField, h, ih]

/-- Writing one key leaves presence of another unchanged. -/
theorem hasField_setField_ne (fs : List (String × JSVal)) (k : String)
    (v : JSVal) (k' : String) (h : k ≠ k') :
    hasField (setField fs k v) k' = hasField fs k' := by
  induction fs with
  | nil => simp [setField, hasField, beq_false_of_ne h]
  | cons p rest ih =>
    obtain ⟨k0, w⟩ := p
    by_cases h0 : (k0 == k) = true
    · simp [setField, h0, hasField]
    · simp only [setField, hasField]
      rw [if_neg (by simp [h0])]
      simp [hasField, ih]

/-- Writing one key leaves the value of another unchanged. -/
theorem getField_setField_ne (fs : List (String × JSVal)) (k : String)
    (v : JSVal) (k' : String) (h : k ≠ k') :
    getField (setField fs k v) k' = getField fs k' := by
  induction fs with
  | nil => simp [setField, getField, beq_false_of_ne h]
  | cons p rest ih =>
    obtain ⟨k0, w⟩ := p
    by_cases h0 : (k0 == k) = true
    · have hk0 : k0 = k := eq_of_beq h0
      subst hk0
      simp only [setField, h0, if_pos h0, getField]
      rw [if_neg (by simp [beq_false_of_ne h]), if_neg (by simp [beq_false_of_ne h])]
    · simp only [setField, getField]
      rw [if_neg (by simp [h0])]
      by_cases h1 : (k0 == k') = true
      · simp [getField, h1]
      · simp [getField, h1, ih]

/-- Rewriting a present key with its own value is the identity. -/
theorem setField_getField_self (fs : List (String × JSVal)) (k : String)
    (h : hasField fs k = true) : setField fs k (getField fs k) = fs := by
  induction fs with
  | nil => simp [hasField] at h
  | cons p rest ih =>
    obtain ⟨k0, w⟩ := p
    by_cases h0 : (k0 == k) = true
    · have hk0 : k0 = k := eq_of_beq h0
      subst hk0
      simp [setField, getField, h0]
    · simp only [hasField] at h
      rw [Bool.or_eq_true] at h
      rcases h with h | h
      · exact absurd h h0
      · simp only [setField, getField]
        rw [if_neg (by simp [h0]), if_neg (by simp [h0])]
        simp [ih h]

/-- One-step inversion of the per-field loop on an object target: the head
field was either present and re-verified, absent with a `visited` hit (early
return), or absent and autofilled. -/
theorem guardFields_cons_inv {g : GuardFn} {env : Env}
    {fs : List (String × JSVal)} {key : String} {attrs : List Attr}
    {rest : SchemaProps} {vis vis' : List String} {y : JSVal}
    (h : guardFields g env (.vObj fs) ((key, attrs) :: rest) vis =
      .ok (y, vis')) :
    (∃ nv vis1, hasField fs key = true ∧
      verifyAndFillField g env (getField fs key) attrs vis = .ok (nv, vis1) ∧
      guardFields g env (.vObj (setField fs key nv)) rest vis1 =
        .ok (y, vis')) ∨
    (∃ attr, hasField fs key = false ∧ attrs.getLast? = some attr ∧
      visitedHas vis attr = true ∧
      y = .vObj (setField fs key (.vObj [])) ∧ vis' = vis) ∨
    (∃ attr v vis2, hasField fs key = false ∧ attrs.getLast? = some attr ∧
      visitedHas vis attr = false ∧
      autoFillValue g env attrs (visitedAdd vis attr) = .ok (v, vis2) ∧
      guardFields g env (.vObj (setField fs key v)) rest vis2 =
        .ok (y, vis')) := by
  rw [guardFields] at h
  simp only [hasKey, Bind.bind, Except.bind, getKey, setKey] at h
  split at h
  case isTrue hp =>
    cases hvf : verifyAndFillField g env (getField fs key) attrs vis with
    | error e => rw [hvf] at h; simp at h
    | ok p =>
      obtain ⟨nv, vis1⟩ := p
      rw [hvf] at h
      exact Or.inl ⟨nv, vis1, hp, rfl, h⟩
  case isFalse hp =>
    have hp2 : hasField fs key = false := by
      rwa [Bool.not_eq_true] at hp
    cases hl : attrs.getLast? with
    | none => rw [hl] at h; simp at h
    | some attr =>
      rw [hl] at h
      simp only [] at h
      split at h
      case isTrue hv =>
        simp only [Except.ok.injEq, Prod.mk.injEq] at h
        exact Or.inr (Or.inl ⟨attr, hp2, rfl, hv, h.1.symm, h.2.symm⟩)
      case isFalse hv =>
        have hv2 : visitedHas vis attr = false := by
          rwa [Bool.not_eq_true] at hv
        cases ha : autoFillValue g env attrs (visitedAdd vis attr) with
        | error e => rw [ha] at h; simp at h
        | ok p =>
          obtain ⟨v, vis2⟩ := p
          rw [ha] at h
          exact Or.inr (Or.inr ⟨attr, v, vis2, hp2, rfl, hv2, ha, h⟩)

/-- Framing: the per-field loop only writes keys of its own property list;
any other key keeps its presence and value, and an object target stays an
object. -/
theorem guardFields_frame (props : SchemaProps) :
    ∀ (g : GuardFn) (env : Env) (fs : List (String × JSVal)) (y : JSVal)
      (vis vis' : List String) (k : String),
      guardFields g env (.vObj fs) props vis = .ok (y, vis') →
      (k ∈ props.map Prod.fst → False) →
      ∃ gs, y = .vObj gs ∧ hasField gs k = hasField fs k ∧
        getField gs k = getField fs k := by
  induction props with
  | nil =>
    intro g env fs y vis vis' k h _
    rw [guardFields] at h
    simp only [Except.ok.injEq, Prod.mk.injEq] at h
    exact ⟨fs, h.1.symm, rfl, rfl⟩
  | cons p rest ih =>
    obtain ⟨key, attrs⟩ := p
    intro g env fs y vis vis' k h hk
    have hkey : key ≠ k := fun he => hk (by simp [he])
    have hkrest : k ∈ rest.map Prod.fst → False := fun hm => hk (by simp [hm])
    rcases guardFields_cons_inv h with
      ⟨nv, vis1, _, _, hrec⟩ | ⟨attr, _, _, _, hy, _⟩ |
      ⟨attr, v, vis2, _, _, _, _, hrec⟩
    · obtain ⟨gs, hygs, hh, hg⟩ := ih g env (setField fs key nv) y vis1 vis' k
        hrec hkrest
      exact ⟨gs, hygs, by rw [hh, hasField_setField_ne fs key nv k hkey],
        by rw [hg, getField_setField_ne fs key nv k hkey]⟩
    · exact ⟨setField fs key (.vObj []), hy,
        hasField_setField_ne fs key (.vObj []) k hkey,
        getField_setField_ne fs key (.vObj []) k hkey⟩
    · obtain ⟨gs, hygs, hh, hg⟩ := ih g env (setField fs key v) y vis2 vis' k
        hrec hkrest
      exact ⟨gs, hygs, by rw [hh, hasField_setField_ne fs key v k hkey],
        by rw [hg, getField_setField_ne fs key v k hkey]⟩

/-- On an array target the per-field loop is the identity: every key tests
absent and property writes do not change the array value (expando properties
are not modelled; the array is returned as-is). -/
theorem guardFields_arr (props : SchemaProps) :
    ∀ (g : GuardFn) (env : Env) (xs : List JSVal) (y : JSVal)
      (vis vis' : List String),
      guardFields g env (.vArr xs) props vis = .ok (y, vis') →
      y = .vArr xs := by
  induction props with
  | nil =>
    intro g env xs y vis vis' h
    rw [guardFields] at h
    simp only [Except.ok.injEq, Prod.mk.injEq] at h
    exact h.1.symm
  | cons p rest ih =>
    obtain ⟨key, attrs⟩ := p
    intro g env xs y vis vis' h
    rw [guardFields] at h
    simp only [hasKey, Bind.bind, Except.bind, Bool.false_eq_true,
      if_false] at h
    cases hl : attrs.getLast? with
    | none => rw [hl] at h; simp at h
    | some attr =>
      rw [hl] at h
      simp only [] at h
      split at h
      · simp only [setKey, Except.ok.injEq, Prod.mk.injEq] at h
        exact h.1.symm
      · cases ha : autoFillValue g env attrs (visitedAdd vis attr) with
        | error e => rw [ha] at h; simp at h
        | ok q =>
          obtain ⟨v, vis2⟩ := q
          rw [ha] at h
          simp only [setKey] at h
          exact ih g env xs y vis2 vis' h

/-- C8: a type-reference alternative written with type arguments (e.g.
`Promise<string>`) is classified to the `ParseError` marker (each such
classification logs a warning) rather than aborting the parse — the sibling
field is still produced — and the `items` field, whose alternative list
became empty, is omitted from the declaration; moreover the guard never
introduces a key that is neither on the target nor among an object-shaped
schema's property keys. -/
theorem c8_generic_reference_dropped_and_never_introduced :
    parseTypeNode (some (.typeReferenceNode "Promise<string>")) =
      [createErrorAttr] ∧
    parseInterfaceProps
      [some ("items", false, some (.typeReferenceNode "Promise<string>")),
       some ("name", false, some (.baseKeyword .StringKeyword))] =
      [("name", [(.kwText .StringKeyword, false, .baseType)], false)] ∧
    ∀ (fuel : Nat) (env : Env) (x : JSVal) (schema : Schema)
      (vis vis' : List String) (y : JSVal) (k : String),
      (schema.kind == some .TypeAliasDeclaration) = false →
      hasKey x k = .ok false →
      (k ∈ schema.props.map Prod.fst → False) →
      applySchemaGuardF fuel env x schema false vis = .ok (y, vis') →
      hasKey y k = .ok false := by
  have hc : "Promise<string>".data.contains '<' = true := by decide
  have href : parseTypeNode (some (.typeReferenceNode "Promise<string>")) =
      [createErrorAttr] := by
    rw [parseTypeNode, if_pos hc]
  have hbase : parseTypeNode (some (.baseKeyword .StringKeyword)) =
      [(.kwText .StringKeyword, false, .baseType)] := by
    rw [parseTypeNode]
  have e1 : parsePropertyNode
      (some ("items", false, some (.typeReferenceNode "Promise<string>"))) =
      none := by
    rw [parsePropertyNode, href]
    rfl
  have e2 : parsePropertyNode
      (some ("name", false, some (.baseKeyword .StringKeyword))) =
      some ("name", [(.kwText .StringKeyword, false, .baseType)], false) := by
    rw [parsePropertyNode, hbase]
    rfl
  refine ⟨href, ?_, ?_⟩
  · rw [parseInterfaceProps, e1, parseInterfaceProps, e2,
      parseInterfaceProps]
  intro fuel env x schema vis vis' y k hkind hx hk h
  cases fuel with
  | zero => simp [applySchemaGuardF] at h
  | succ fuel =>
    rw [applySchemaGuardF] at h
    simp only [Bool.false_eq_true, if_false, hkind] at h
    cases x with
    | vObj fs =>
      have hfs : hasField fs k = false := by
        simpa [hasKey] using hx
      obtain ⟨gs, hy, hh, _⟩ :=
        guardFields_frame schema.props (applySchemaGuardF fuel env) env fs y
          vis vis' k h hk
      rw [hy]
      simp [hasKey, hh, hfs]
    | vArr xs =>
      rw [guardFields_arr schema.props (applySchemaGuardF fuel env) env xs y
        vis vis' h]
      rfl
    | vStr s => simp [hasKey] at hx
    | vNum n => simp [hasKey] at hx
    | vBool b => simp [hasKey] at hx
    | vUndefined => simp [hasKey] at hx
    | vNull => simp [hasKey] at hx

/-- Witness for C8: a schema without an `items` key and a target without it;
the guard result has no `items` key either. -/
theorem c8_witness :
    hasKey (.vObj [("name", .vStr "")]) "items" = .ok false := by
  have h := (c8_generic_reference_dropped_and_never_introduced).2.2 3 []
    (.vObj []) ⟨some .InterfaceDeclaration,
      [("name", [(.baseType .StringKeyword, false)])]⟩ [] [] 
    (.vObj [("name", .vStr "")]) "items" (by rfl) (by rfl)
    (by intro hm; simp at hm) (by rfl)
  exact h

/-!
Idempotence of the guard on flat schemas (every alternative primitive or
literal): the verify loop never descends, autofill defaults are fixpoints of
re-verification, and the `visited` set is never touched.
-/

/-- The last attribute of an all-flat attribute list is flat. -/
theorem isFlatAttr_of_getLast (attrs : List Attr) (a : Attr)
    (hf : attrs.all isFlatAttr = true) (hl : attrs.getLast? = some a) :
    isFlatAttr a = true :=
  List.all_eq_true.mp hf a (List.mem_of_mem_getLast? hl)

/-- A flat attribute value is never a `visited` member. -/
theorem visitedHas_flat (vis : List String) (a : Attr)
    (hA : isFlatAttr a = true) : visitedHas vis a = false := by
  obtain ⟨av, arr⟩ := a
  cases av with
  | baseType kw => rfl
  | aliasV v => rfl
  | typeLiteral props => simp [isFlatAttr] at hA
  | typeReference name => simp [isFlatAttr] at hA

/-- Adding a flat attribute value to `visited` is a no-op. -/
theorem visitedAdd_flat (vis : List String) (a : Attr)
    (hA : isFlatAttr a = true) : visitedAdd vis a = vis := by
  obtain ⟨av, arr⟩ := a
  cases av with
  | baseType kw => rfl
  | aliasV v => rfl
  | typeLiteral props => simp [isFlatAttr] at hA
  | typeReference name => simp [isFlatAttr] at hA

/-- Over an all-flat attribute list the verify loop returns the inspected
value unchanged (with some verified flag), independently of the recursive
guard and environment. -/
theorem verifyLoop_flat (attrs : List Attr) (h : attrs.all isFlatAttr = true)
    (x : JSVal) :
    ∃ b, ∀ (g : GuardFn) (env : Env),
      verifyLoop g env attrs x false = .ok (b, x) := by
  induction attrs with
  | nil => exact ⟨false, fun g env => rfl⟩
  | cons a rest ih =>
    rw [List.all_cons, Bool.and_eq_true] at h
    obtain ⟨ha, hrest⟩ := h
    obtain ⟨b, hb⟩ := ih hrest
    by_cases hc : flatCheck a x = true
    · exact ⟨true, fun g env => verifyLoop_flat_pass g env a rest x false hc⟩
    · refine ⟨b, fun g env => ?_⟩
      rw [verifyLoop_flat_fail g env a rest x false ha
        (by rwa [Bool.not_eq_true] at hc)]
      exact hb g env

/-- Autofill over a list whose last attribute is flat yields that attribute's
default and leaves `visited` unchanged. -/
theorem autoFillValue_flat (attrs : List Attr) (a : Attr)
    (hl : attrs.getLast? = some a) (hA : isFlatAttr a = true) :
    ∀ (g : GuardFn) (env : Env) (vis : List String),
      autoFillValue g env attrs vis = .ok (flatDefault a, vis) := by
  intro g env vis
  obtain ⟨av, arr⟩ := a
  cases av with
  | baseType kw => cases arr <;> simp [autoFillValue, hl, flatDefault]
  | aliasV v =>
    cases arr <;> simp [autoFillValue, hl, flatDefault, fillAliasType]
  | typeLiteral props => simp [isFlatAttr] at hA
  | typeReference name => simp [isFlatAttr] at hA

/-- The flat default is a fixpoint of field re-verification. -/
theorem verifyAndFillField_flatDefault (attrs : List Attr) (a : Attr)
    (hf : attrs.all isFlatAttr = true) (hl : attrs.getLast? = some a) :
    ∀ (g : GuardFn) (env : Env) (vis : List String),
      verifyAndFillField g env (flatDefault a) attrs vis =
        .ok (flatDefault a, vis) := by
  intro g env vis
  have hA := isFlatAttr_of_getLast attrs a hf hl
  obtain ⟨b2, hb2⟩ := verifyLoop_flat attrs hf (flatDefault a)
  unfold verifyAndFillField
  rw [hb2 g env]
  simp only [Bind.bind, Except.bind]
  by_cases hbb : b2 = true
  · subst hbb; simp
  · rw [Bool.not_eq_true] at hbb
    rw [hbb]
    simp only [Bool.false_eq_true, if_false]
    exact autoFillValue_flat attrs a hl hA g env vis

/-- A successful flat field verification leaves `visited` unchanged and its
result is a fixpoint of re-verification (for any guard and environment). -/
theorem verifyAndFillField_flat_ok (attrs : List Attr)
    (hf : attrs.all isFlatAttr = true) {g : GuardFn} {env : Env} {x : JSVal}
    {vis vis0 : List String} {y : JSVal}
    (h : verifyAndFillField g env x attrs vis = .ok (y, vis0)) :
    vis0 = vis ∧ ∀ (g' : GuardFn) (env' : Env) (vis' : List String),
      verifyAndFillField g' env' y attrs vis' = .ok (y, vis') := by
  obtain ⟨b, hb⟩ := verifyLoop_flat attrs hf x
  unfold verifyAndFillField at h
  rw [hb g env] at h
  simp only [Bind.bind, Except.bind] at h
  by_cases hbb : b = true
  · subst hbb
    simp only [eq_self_iff_true, if_true, Except.ok.injEq,
      Prod.mk.injEq] at h
    obtain ⟨hy, hvis⟩ := h
    subst hy
    refine ⟨hvis.symm, fun g' env' vis' => ?_⟩
    unfold verifyAndFillField
    rw [hb g' env']
    simp [Bind.bind, Except.bind]
  · rw [Bool.not_eq_true] at hbb
    rw [hbb] at h
    simp only [Bool.false_eq_true, if_false] at h
    cases hl : attrs.getLast? with
    | none => unfold autoFillValue at h; rw [hl] at h; simp at h
    | some a =>
      have hA := isFlatAttr_of_getLast attrs a hf hl
      rw [autoFillValue_flat attrs a hl hA g env vis] at h
      simp only [Except.ok.injEq, Prod.mk.injEq] at h
      obtain ⟨hy, hvis⟩ := h
      subst hy
      exact ⟨hvis.symm, fun g' env' vis' =>
        verifyAndFillField_flatDefault attrs a hf hl g' env' vis'⟩

/-- The per-field loop on an all-flat property list with pairwise distinct
keys leaves `visited` unchanged and produces an object that is a fixpoint of
the loop under any guard, environment and `visited` set. -/
theorem guardFields_flat_idem (props : SchemaProps) :
    props.all (fun p => p.2.all isFlatAttr) = true →
    props.Pairwise (fun p q => p.1 ≠ q.1) →
    ∀ (g : GuardFn) (env : Env) (fs : List (String × JSVal)) (y : JSVal)
      (vis vis0 : List String),
      guardFields g env (.vObj fs) props vis = .ok (y, vis0) →
      vis0 = vis ∧ ∃ gs, y = .vObj gs ∧
        ∀ (g' : GuardFn) (env' : Env) (vis' : List String),
          guardFields g' env' (.vObj gs) props vis' =
            .ok (.vObj gs, vis') := by
  induction props with
  | nil =>
    intro _ _ g env fs y vis vis0 h
    rw [guardFields] at h
    simp only [Except.ok.injEq, Prod.mk.injEq] at h
    exact ⟨h.2.symm, fs, h.1.symm, fun g' env' vis' => by rw [guardFields]⟩
  | cons p rest ih =>
    obtain ⟨key, attrs⟩ := p
    intro hFlat hNd g env fs y vis vis0 h
    rw [List.all_cons, Bool.and_eq_true] at hFlat
    obtain ⟨hfa, hfrest⟩ := hFlat
    rw [List.pairwise_cons] at hNd
    obtain ⟨hkeyne, hndrest⟩ := hNd
    have hknot : key ∈ rest.map Prod.fst → False := by
      intro hm
      obtain ⟨q, hq, hq2⟩ := List.mem_map.mp hm
      exact hkeyne q hq hq2.symm
    rcases guardFields_cons_inv h with
      ⟨nv, vis1, hp, hvf, hrec⟩ | ⟨attr, hp, hl, hv, hy, hveq⟩ |
      ⟨attr, v, vis2, hp, hl, hv, ha, hrec⟩
    · -- key present: re-verified value is a fixpoint
      obtain ⟨hvis1, hfix⟩ := verifyAndFillField_flat_ok attrs hfa hvf
      rw [hvis1] at hrec
      obtain ⟨hveq, gs, hy, hidem⟩ :=
        ih hfrest hndrest g env (setField fs key nv) y vis vis0 hrec
      subst hy
      obtain ⟨gs2, hygs2, hh, hg⟩ :=
        guardFields_frame rest g env (setField fs key nv) (.vObj gs) vis vis0
          key hrec hknot
      have hgseq : gs2 = gs := by injection hygs2 with h2; exact h2.symm
      subst hgseq
      have hpres : hasField gs2 key = true := by
        rw [hh]; exact hasField_setField_self fs key nv
      have hget : getField gs2 key = nv := by
        rw [hg]; exact getField_setField_self fs key nv
      have hset : setField gs2 key nv = gs2 := by
        rw [← hget]; exact setField_getField_self gs2 key hpres
      refine ⟨hveq, gs2, rfl, fun g' env' vis' => ?_⟩
      rw [guardFields]
      simp only [hasKey, Bind.bind, Except.bind, getKey, setKey, hpres,
        eq_self_iff_true, if_true, hget, hfix g' env' vis', hset]
      exact hidem g' env' vis'
    · -- visited hit is impossible for a flat last attribute
      have hA := isFlatAttr_of_getLast attrs attr hfa hl
      rw [visitedHas_flat vis attr hA] at hv
      exact Bool.noConfusion hv
    · -- key absent: the flat default is filled and is a fixpoint
      have hA := isFlatAttr_of_getLast attrs attr hfa hl
      rw [visitedAdd_flat vis attr hA,
        autoFillValue_flat attrs attr hl hA g env vis] at ha
      simp only [Except.ok.injEq, Prod.mk.injEq] at ha
      obtain ⟨hvv, hvis2⟩ := ha
      subst hvv
      rw [← hvis2] at hrec
      obtain ⟨hveq, gs, hy, hidem⟩ :=
        ih hfrest hndrest g env (setField fs key (flatDefault attr)) y vis
          vis0 hrec
      subst hy
      obtain ⟨gs2, hygs2, hh, hg⟩ :=
        guardFields_frame rest g env (setField fs key (flatDefault attr))
          (.vObj gs) vis vis0 key hrec hknot
      have hgseq : gs2 = gs := by injection hygs2 with h2; exact h2.symm
      subst hgseq
      have hpres : hasField gs2 key = true := by
        rw [hh]; exact hasField_setField_self fs key (flatDefault attr)
      have hget : getField gs2 key = flatDefault attr := by
        rw [hg]; exact getField_setField_self fs key (flatDefault attr)
      have hset : setField gs2 key (flatDefault attr) = gs2 := by
        rw [← hget]; exact setField_getField_self gs2 key hpres
      refine ⟨hveq, gs2, rfl, fun g' env' vis' => ?_⟩
      rw [guardFields]
      simp only [hasKey, Bind.bind, Except.bind, getKey, setKey, hpres,
        eq_self_iff_true, if_true, hget,
        verifyAndFillField_flatDefault attrs attr hfa hl g' env' vis', hset]
      exact hidem g' env' vis'

/-- C2 (amended): for every object-shaped target and every schema all of
whose alternatives are primitive or literal (no InlineObject/ObjectReference
alternatives) with pairwise distinct field keys, the guard is idempotent:
re-guarding the result reproduces it exactly (for any fuel and environment —
flat schemas never recurse).  With object-kind alternatives present a second
run can differ, as the self-referencing counterexample shows. -/
theorem c2_guard_idempotent_on_flat_schemas :
    ∀ (fuel fuel2 : Nat) (env env2 : Env) (S : Schema)
      (fs : List (String × JSVal)) (y : JSVal) (vis0 : List String),
      S.props.all (fun p => p.2.all isFlatAttr) = true →
      (S.props.map Prod.fst).Nodup →
      applySchemaGuardF (fuel + 1) env (.vObj fs) S false [] = .ok (y, vis0) →
      applySchemaGuardF (fuel2 + 1) env2 y S false [] = .ok (y, vis0) := by
  intro fuel fuel2 env env2 S fs y vis0 hFlat hNd h
  have hPw : S.props.Pairwise (fun p q => p.1 ≠ q.1) := by
    unfold List.Nodup at hNd
    rwa [List.pairwise_map] at hNd
  rw [applySchemaGuardF] at h
  rw [applySchemaGuardF]
  simp only [Bool.false_eq_true, if_false] at h ⊢
  by_cases hk : (S.kind == some DeclarationType.TypeAliasDeclaration) = true
  · rw [if_pos hk] at h ⊢
    cases hp : S.props with
    | nil =>
      rw [hp] at h
      exact Except.noConfusion h
    | cons p0 prest =>
      obtain ⟨k0, attrs0⟩ := p0
      rw [hp] at h
      have h2 : autoFillValue (applySchemaGuardF fuel env) env attrs0 [] =
          .ok (y, vis0) := h
      have hfa0 : attrs0.all isFlatAttr = true := by
        rw [hp, List.all_cons, Bool.and_eq_true] at hFlat
        exact hFlat.1
      cases hl : attrs0.getLast? with
      | none => unfold autoFillValue at h2; rw [hl] at h2; simp at h2
      | some a =>
        have hA := isFlatAttr_of_getLast attrs0 a hfa0 hl
        rw [autoFillValue_flat attrs0 a hl hA _ env []] at h2
        simp only [Except.ok.injEq, Prod.mk.injEq] at h2
        obtain ⟨hy, hv⟩ := h2
        show autoFillValue (applySchemaGuardF fuel2 env2) env2 attrs0 [] =
          Except.ok (y, vis0)
        rw [← hy, ← hv]
        exact autoFillValue_flat attrs0 a hl hA _ env2 []
  · rw [Bool.not_eq_true] at hk
    rw [hk] at h ⊢
    simp only [Bool.false_eq_true, if_false] at h ⊢
    obtain ⟨hv0, gs, hy, hidem⟩ :=
      guardFields_flat_idem S.props hFlat hPw _ env fs y [] vis0 h
    subst hy
    subst hv0
    exact hidem _ env2 []

/-- The flat schema `{name: string | 'default', age: number | 1}` used to
witness flat idempotence. -/
def flatNameAge : Schema :=
  ⟨some .InterfaceDeclaration,
    [("name",
      [(.baseType .StringKeyword, false), (.aliasV (.vStr "default"), false)]),
     ("age", [(.baseType .NumberKeyword, false), (.aliasV (.vNum 1), false)])]⟩

/-- Witness for C2: guarding `{name: 'zcy'}` against `flatNameAge` yields
`{name: 'zcy', age: 1}`, and guarding that result again reproduces it. -/
theorem c2_flat_idempotence_witness :
    applySchemaGuardF 1 [] (.vObj [("name", .vStr "zcy")]) flatNameAge false []
      = .ok (.vObj [("name", .vStr "zcy"), ("age", .vNum 1)], []) ∧
    applySchemaGuardF 1 []
        (.vObj [("name", .vStr "zcy"), ("age", .vNum 1)]) flatNameAge false []
      = .ok (.vObj [("name", .vStr "zcy"), ("age", .vNum 1)], []) :=
  ⟨rfl,
    c2_guard_idempotent_on_flat_schemas 0 0 [] [] flatNameAge
      [("name", .vStr "zcy")]
      (.vObj [("name", .vStr "zcy"), ("age", .vNum 1)]) [] (by rfl)
      (by simp [flatNameAge]) (by rfl)⟩

/-- Witness for C6: the present string `'hi'` fails the leading `number`
alternative, passes the `string` alternative, and is kept exactly, with the
trailing alternative irrelevant. -/
theorem c6_first_flat_match_witness :
    verifyAndFillField (applySchemaGuardF 1 []) [] (.vStr "hi")
        [(.baseType .NumberKeyword, false), (.baseType .StringKeyword, false),
         (.aliasV (.vNum 7), false)] [] = .ok (.vStr "hi", []) :=
  c6_first_flat_match_keeps_value (applySchemaGuardF 1 []) []
    [(.baseType .NumberKeyword, false)]
    [(.aliasV (.vNum 7), false)] (.baseType .StringKeyword, false)
    (.vStr "hi") [] (by rfl) (by rfl)
